import Mathlib

/-!
Verification of the board allocation engine (`board_state.py`) and the bot
control loop (`bot_logic.py`) of the Puzelki block-solver.

The `config` module is not part of the sources, so the configuration values
it provides (`BLOCK_LIMITS`, `BLOCK_POSITIONS`, `MAX_CHEST_RETRIES`) are
taken as parameters (`limits`, `positions`, `maxRetries`), and the grid
dimensions are the fixed 4×6 of the spec.
-/

namespace Puzelki

/-- The piece types: the five placeable colors plus the always-rejected
ORANGE (the keys of the `sizes` dict in `update_from_scan`). -/
inductive BlockType
  | CYAN
  | BLUE
  | RED
  | GREEN
  | YELLOW
  | ORANGE
deriving DecidableEq, Repr, Fintype

/-- Modelled from the spec: `BOARD_ROWS = 4`, `BOARD_COLS = 6` live in the
absent `config` module; the spec fixes the board at 4×6.  A cell is a
(row, col) coordinate. -/
abbrev Cell := Fin 4 × Fin 6

/-- The board matrix: `none` = empty, `some t` = a cell labeled with type `t`. -/
abbrev Grid := Fin 4 → Fin 6 → Option BlockType

/-- One candidate position from `BLOCK_POSITIONS`: its stable identifier and
the grid cells it occupies.  (The on-screen click target `center_col` /
`center_row` is only ever forwarded to the actuator and is not modelled.) -/
structure SlotPosition where
  id : String
  cells : List Cell
deriving DecidableEq, Repr

/-- The state held by `BoardState`: grid, per-type placed counters and the
set of consumed slot identifiers.  `placed_counts` is total on `BlockType`
because `BLOCK_LIMITS` has one entry per type (dict access uses
`.get(type, 0)` defaults). -/
structure BoardState where
  grid : Grid
  placed_counts : BlockType → Nat
  used_positions : Finset String

/-- `BoardState.__init__`: all-empty grid, zero counters, empty consumed set. -/
def initBoard : BoardState where
  grid := fun _ _ => none
  placed_counts := fun _ => 0
  used_positions := ∅

/-- `BoardState.reset`: re-creates the initial state. -/
def reset (_b : BoardState) : BoardState where
  grid := fun _ _ => none
  placed_counts := fun _ => 0
  used_positions := ∅

/-- Number of grid cells carrying label `t` (the `cell_counts` tally of
`update_from_scan`). -/
def cellCount (g : Grid) (t : BlockType) : Nat :=
  (Finset.univ.filter fun p : Cell => g p.1 p.2 = some t).card

/-- The `sizes` dict of `update_from_scan`: cell footprint of one piece. -/
def BLOCK_SIZES : BlockType → Nat
  | .CYAN => 4
  | .BLUE => 3
  | .RED => 4
  | .GREEN => 3
  | .YELLOW => 3
  | .ORANGE => 1

/-- `BoardState.update_from_scan`: replaces the grid with a copy of the
scanned one and recomputes every placed counter as
`(cells + size - 1) // size`; the consumed set is not touched. -/
def update_from_scan (b : BoardState) (scanned : Grid) : BoardState where
  grid := scanned
  placed_counts := fun t => (cellCount scanned t + BLOCK_SIZES t - 1) / BLOCK_SIZES t
  used_positions := b.used_positions

/-- `BoardState.can_place_block`: current count below the configured limit. -/
def can_place_block (limits : BlockType → Nat) (b : BoardState) (t : BlockType) : Bool :=
  decide (b.placed_counts t < limits t)

/-- The all-cells-free test of `get_next_position`
(`self.grid[row][col] is not None` sets `all_free = False`). -/
def slotFree (g : Grid) (pos : SlotPosition) : Bool :=
  pos.cells.all fun c => (g c.1 c.2).isNone

/-- The scan loop of `get_next_position`: skip a used id, return the first
slot whose cells are all free, else keep scanning. -/
def findFreePosition (b : BoardState) : List SlotPosition → Option SlotPosition
  | [] => none
  | pos :: rest =>
    if pos.id ∈ b.used_positions then findFreePosition b rest
    else if slotFree b.grid pos then some pos
    else findFreePosition b rest

/-- `BoardState.get_next_position`, with the static candidate catalog
`BLOCK_POSITIONS` (absent `config` module) as the parameter `positions`. -/
def get_next_position (positions : BlockType → List SlotPosition) (b : BoardState)
    (t : BlockType) : Option SlotPosition :=
  findFreePosition b (positions t)

/-- A single assignment `self.grid[row][col] = block_type`. -/
def setCell (g : Grid) (c : Cell) (t : BlockType) : Grid :=
  fun r col => if r = c.1 ∧ col = c.2 then some t else g r col

/-- The cell-marking loop of `mark_position_used`. -/
def writeCells (g : Grid) (cells : List Cell) (t : BlockType) : Grid :=
  cells.foldl (fun g' c => setCell g' c t) g

/-- `BoardState.mark_position_used`: label the slot's cells, bump the type's
counter, record the slot id as used. -/
def mark_position_used (b : BoardState) (t : BlockType) (pos : SlotPosition) : BoardState where
  grid := writeCells b.grid pos.cells t
  placed_counts := fun t' => if t' = t then b.placed_counts t' + 1 else b.placed_counts t'
  used_positions := insert pos.id b.used_positions

/-- Modelled from the spec: the keys of `BLOCK_LIMITS` (absent `config`
module) are the six piece types, over which `get_total_placed` sums. -/
def ALL_TYPES : List BlockType := [.CYAN, .BLUE, .RED, .GREEN, .YELLOW, .ORANGE]

/-- `BoardState.get_total_placed`: sum of the placed counters. -/
def get_total_placed (b : BoardState) : Nat :=
  (ALL_TYPES.map b.placed_counts).sum

/-- `BoardState.is_complete`: at least 7 pieces placed in total. -/
def is_complete (b : BoardState) : Bool :=
  decide (7 ≤ get_total_placed b)

/-- `BoardState.get_empty_count`: number of empty grid cells. -/
def get_empty_count (b : BoardState) : Nat :=
  (Finset.univ.filter fun p : Cell => b.grid p.1 p.2 = none).card

/-- The availability test `get_next_position` applies to one candidate:
identifier not consumed and every cell free. -/
def slotAvailable (b : BoardState) (pos : SlotPosition) : Bool :=
  !(decide (pos.id ∈ b.used_positions)) && slotFree b.grid pos

theorem findFreePosition_eq_find (b : BoardState) (l : List SlotPosition) :
    findFreePosition b l = l.find? (slotAvailable b) := by
  induction l with
  | nil => rfl
  | cons pos rest ih =>
    by_cases hu : pos.id ∈ b.used_positions
    · simp [findFreePosition, hu, List.find?, slotAvailable, ih]
    · by_cases hf : slotFree b.grid pos = true
      · simp [findFreePosition, hu, hf, List.find?, slotAvailable]
      · simp [findFreePosition, hu, hf, List.find?, slotAvailable, ih]

theorem slotAvailable_spec (b : BoardState) (pos : SlotPosition)
    (h : slotAvailable b pos = true) :
    pos.id ∉ b.used_positions ∧ ∀ c ∈ pos.cells, b.grid c.1 c.2 = none := by
  simp only [slotAvailable, Bool.and_eq_true, Bool.not_eq_true', decide_eq_false_iff_not,
    slotFree, List.all_eq_true, Option.isNone_iff_eq_none] at h
  exact h

/-- C1: `get_next_position` scans the type's candidate list in its fixed
order and returns the first slot whose identifier is not consumed and whose
cells are all empty (`List.find?` of the availability test), or `none` if no
candidate qualifies; in particular a returned slot is never consumed and has
no occupied cell. -/
theorem get_next_position_first_available (positions : BlockType → List SlotPosition)
    (b : BoardState) (t : BlockType) :
    get_next_position positions b t = (positions t).find? (slotAvailable b) ∧
    ∀ pos, get_next_position positions b t = some pos →
      pos.id ∉ b.used_positions ∧ ∀ c ∈ pos.cells, b.grid c.1 c.2 = none := by
  refine ⟨findFreePosition_eq_find b (positions t), fun pos h => ?_⟩
  rw [get_next_position, findFreePosition_eq_find] at h
  exact slotAvailable_spec b pos (List.find?_some h)

/-- Modelled from the spec: two RED candidate slots (`R1`, `R2`) of footprint
4 as in the §8 scenario; stands in for the absent `BLOCK_POSITIONS` table. -/
def demoSlotR1 : SlotPosition := ⟨"R1", [(0, 0), (0, 1), (1, 0), (1, 1)]⟩

/-- Second demo RED slot. -/
def demoSlotR2 : SlotPosition := ⟨"R2", [(0, 2), (0, 3), (1, 2), (1, 3)]⟩

/-- Demo candidate catalog: RED has slots `R1`, `R2`; other types none. -/
def demoPositions : BlockType → List SlotPosition
  | .RED => [demoSlotR1, demoSlotR2]
  | _ => []

theorem get_next_position_first_available_witness :
    "R1" ∉ initBoard.used_positions ∧
    ∀ c ∈ demoSlotR1.cells, initBoard.grid c.1 c.2 = none :=
  (get_next_position_first_available demoPositions initBoard BlockType.RED).2
    demoSlotR1 (by decide)

/-- A scanned grid with exactly 5 cells labeled BLUE (the §8 scenario). -/
def fiveBlueGrid : Grid := fun r c =>
  if r.val = 0 ∧ c.val < 5 then some BlockType.BLUE else none

/-- C2: after `update_from_scan`, each type's placed count is the ceiling of
(cells labeled with the type) / (footprint size) — stated as Mathlib's
ceiling division, via the Galois characterization of the ceiling, and on the
concrete 5-BLUE-cells scan (footprint 3, count 2) — for every prior state,
hence regardless of earlier commits or consumed-set contents. -/
theorem update_from_scan_counts_ceil (b : BoardState) (g : Grid) (t : BlockType) :
    (update_from_scan b g).placed_counts t = cellCount g t ⌈/⌉ BLOCK_SIZES t ∧
    (∀ m, (update_from_scan b g).placed_counts t ≤ m ↔ cellCount g t ≤ BLOCK_SIZES t * m) ∧
    (update_from_scan b fiveBlueGrid).placed_counts BlockType.BLUE = 2 := by
  refine ⟨(Nat.ceilDiv_eq_add_pred_div _ _).symm, fun m => ?_, ?_⟩
  · show (cellCount g t + BLOCK_SIZES t - 1) / BLOCK_SIZES t ≤ m ↔ _
    cases t <;> simp only [BLOCK_SIZES] <;> omega
  · show (cellCount fiveBlueGrid BlockType.BLUE + BLOCK_SIZES BlockType.BLUE - 1) /
      BLOCK_SIZES BlockType.BLUE = 2
    decide

/-- C3: `update_from_scan` leaves the consumed-slot set untouched. -/
theorem update_from_scan_keeps_used_positions (b : BoardState) (g : Grid) :
    (update_from_scan b g).used_positions = b.used_positions := rfl

theorem writeCells_apply (cells : List Cell) (t : BlockType) (g : Grid)
    (r : Fin 4) (c : Fin 6) :
    writeCells g cells t r c = if (r, c) ∈ cells then some t else g r c := by
  induction cells generalizing g with
  | nil => simp [writeCells]
  | cons c0 cs ih =>
    show writeCells (setCell g c0 t) cs t r c = _
    rw [ih]
    by_cases hcs : (r, c) ∈ cs
    · simp [hcs]
    · by_cases h0 : (r, c) = c0
      · subst h0
        simp [hcs, setCell]
      · have : ¬(r = c0.1 ∧ c = c0.2) := by
          intro hrc
          exact h0 (Prod.ext hrc.1 hrc.2)
        simp [hcs, h0, setCell, this]

/-- C6: `mark_position_used` writes the type into every cell of the slot,
increments that type's placed count by exactly one, and inserts the slot's
identifier into the consumed set; afterwards every cell of the slot is
non-empty. -/
theorem mark_position_used_effects (b : BoardState) (t : BlockType) (pos : SlotPosition) :
    (∀ c ∈ pos.cells, (mark_position_used b t pos).grid c.1 c.2 = some t) ∧
    (mark_position_used b t pos).placed_counts t = b.placed_counts t + 1 ∧
    (mark_position_used b t pos).used_positions = insert pos.id b.used_positions ∧
    (∀ c ∈ pos.cells, (mark_position_used b t pos).grid c.1 c.2 ≠ none) := by
  have hg : ∀ c ∈ pos.cells, (mark_position_used b t pos).grid c.1 c.2 = some t := by
    intro c hc
    show writeCells b.grid pos.cells t c.1 c.2 = some t
    rw [writeCells_apply]
    simp [hc]
  refine ⟨hg, ?_, rfl, fun c hc => by rw [hg c hc]; exact Option.some_ne_none t⟩
  show (if t = t then b.placed_counts t + 1 else b.placed_counts t) = b.placed_counts t + 1
  simp

theorem mark_position_used_effects_witness :
    (mark_position_used initBoard BlockType.RED demoSlotR1).grid 0 0 = some BlockType.RED ∧
    (mark_position_used initBoard BlockType.RED demoSlotR1).placed_counts BlockType.RED = 1 ∧
    (mark_position_used initBoard BlockType.RED demoSlotR1).used_positions =
      insert "R1" initBoard.used_positions ∧
    (mark_position_used initBoard BlockType.RED demoSlotR1).grid 0 0 ≠ none := by
  have h := mark_position_used_effects initBoard BlockType.RED demoSlotR1
  exact ⟨h.1 (0, 0) (by decide), h.2.1, h.2.2.1, h.2.2.2 (0, 0) (by decide)⟩

/-- C8: `reset` returns the freshly-constructed state — all-empty grid, zero
counts, empty consumed set — so every query (`can_place_block`,
`get_empty_count`, `is_complete`) answers as on a fresh board. -/
theorem reset_eq_fresh (limits : BlockType → Nat) (b : BoardState) :
    reset b = initBoard ∧
    (∀ r c, (reset b).grid r c = none) ∧
    (∀ t, (reset b).placed_counts t = 0) ∧
    (reset b).used_positions = ∅ ∧
    (∀ t, can_place_block limits (reset b) t = can_place_block limits initBoard t) ∧
    get_empty_count (reset b) = get_empty_count initBoard ∧
    is_complete (reset b) = is_complete initBoard :=
  ⟨rfl, fun _ _ => rfl, fun _ => rfl, rfl, fun _ => rfl, rfl, rfl⟩

/-- The slot identifiers of one type's candidate list. -/
def typeIds (positions : BlockType → List SlotPosition) (t : BlockType) : List String :=
  (positions t).map SlotPosition.id

/-- The §3 invariant: each type's placed count equals the number of that
type's slot identifiers in the consumed set. -/
abbrev countsMatchUsed (positions : BlockType → List SlotPosition) (b : BoardState) : Prop :=
  ∀ t, b.placed_counts t =
    (b.used_positions.filter fun i => i ∈ typeIds positions t).card

/-- C4: the placed-count/consumed-set invariant holds on the fresh board, is
re-established by `reset`, and is preserved by a commit of any slot returned
by `get_next_position` (the engine's contract), provided slot identifiers do
not repeat across different types' candidate lists. -/
theorem counts_match_used_preserved (positions : BlockType → List SlotPosition)
    (b : BoardState) (t : BlockType) (pos : SlotPosition)
    (hinv : countsMatchUsed positions b)
    (hnext : get_next_position positions b t = some pos)
    (hcross : ∀ t', t' ≠ t → pos.id ∉ typeIds positions t') :
    countsMatchUsed positions initBoard ∧
    countsMatchUsed positions (reset b) ∧
    countsMatchUsed positions (mark_position_used b t pos) := by
  rw [get_next_position, findFreePosition_eq_find] at hnext
  have hid : pos.id ∈ typeIds positions t :=
    List.mem_map_of_mem _ (List.mem_of_find?_eq_some hnext)
  have hnotused : pos.id ∉ b.used_positions :=
    (slotAvailable_spec b pos (List.find?_some hnext)).1
  have hfresh : ∀ t', (0 : Nat) =
      ((∅ : Finset String).filter fun i => i ∈ typeIds positions t').card := by
    simp
  refine ⟨hfresh, hfresh, fun t' => ?_⟩
  show (if t' = t then b.placed_counts t' + 1 else b.placed_counts t') =
    ((insert pos.id b.used_positions).filter fun i => i ∈ typeIds positions t').card
  rw [Finset.filter_insert]
  by_cases h : t' = t
  · subst h
    rw [if_pos hid, if_pos rfl,
      Finset.card_insert_of_not_mem fun hm => hnotused (Finset.mem_filter.1 hm).1,
      hinv t']
  · rw [if_neg h, if_neg (hcross t' h), hinv t']

theorem counts_match_used_preserved_witness :
    countsMatchUsed demoPositions initBoard ∧
    countsMatchUsed demoPositions (mark_position_used initBoard BlockType.RED demoSlotR1) := by
  have h := counts_match_used_preserved demoPositions initBoard BlockType.RED demoSlotR1
    (by decide) (by decide) (by decide)
  exact ⟨h.1, h.2.2⟩

/-- A sequence of commits, all of one type (for the quota property). -/
def commitMany (t : BlockType) (ps : List SlotPosition) (b : BoardState) : BoardState :=
  ps.foldl (fun b' p => mark_position_used b' t p) b

theorem commitMany_placed_counts (t : BlockType) (ps : List SlotPosition) (b : BoardState) :
    (commitMany t ps b).placed_counts t = b.placed_counts t + ps.length := by
  induction ps generalizing b with
  | nil => simp [commitMany]
  | cons p ps ih =>
    have hstep : commitMany t (p :: ps) b = commitMany t ps (mark_position_used b t p) := rfl
    rw [hstep, ih]
    show (if t = t then b.placed_counts t + 1 else b.placed_counts t) + ps.length = _
    simp
    omega

/-- C5: `can_place_block` is true exactly when the type's placed count is
below its configured limit (a pure query of the state); consequently, after
N commits of a type from a fresh board and no reset, it is false exactly
when N has reached the limit. -/
theorem can_place_block_iff (limits : BlockType → Nat) (b : BoardState) (t : BlockType) :
    (can_place_block limits b t = true ↔ b.placed_counts t < limits t) ∧
    ∀ ps : List SlotPosition,
      can_place_block limits (commitMany t ps initBoard) t = false ↔ limits t ≤ ps.length := by
  constructor
  · simp [can_place_block]
  · intro ps
    simp [can_place_block, commitMany_placed_counts]
    show limits t ≤ initBoard.placed_counts t + ps.length ↔ _
    have h0 : initBoard.placed_counts t = 0 := rfl
    omega

/-- A sequence of commits of mixed types (for the completion property). -/
def runCommits (cs : List (BlockType × SlotPosition)) (b : BoardState) : BoardState :=
  cs.foldl (fun b' c => mark_position_used b' c.1 c.2) b

theorem get_total_placed_mark (b : BoardState) (t : BlockType) (pos : SlotPosition) :
    get_total_placed (mark_position_used b t pos) = get_total_placed b + 1 := by
  cases t <;> simp [get_total_placed, ALL_TYPES, mark_position_used] <;> omega

theorem get_total_placed_runCommits (cs : List (BlockType × SlotPosition)) (b : BoardState) :
    get_total_placed (runCommits cs b) = get_total_placed b + cs.length := by
  induction cs generalizing b with
  | nil => simp [runCommits]
  | cons c cs ih =>
    have hstep : runCommits (c :: cs) b = runCommits cs (mark_position_used b c.1 c.2) := rfl
    rw [hstep, ih, get_total_placed_mark]
    simp only [List.length_cons]
    omega

/-- C7: `is_complete` is true exactly when the placed counts sum to at least
7; along any commit sequence from a fresh board it is true exactly once the
cumulative number of commits has reached 7, and false before. -/
theorem is_complete_iff_seven (b : BoardState) :
    (is_complete b = true ↔ 7 ≤ get_total_placed b) ∧
    ∀ cs : List (BlockType × SlotPosition),
      is_complete (runCommits cs initBoard) = true ↔ 7 ≤ cs.length := by
  constructor
  · simp [is_complete]
  · intro cs
    have h0 : get_total_placed initBoard = 0 := rfl
    simp [is_complete, get_total_placed_runCommits, h0]

/-- The `BotState` enum of `bot_logic.py`. -/
inductive BotState
  | IDLE
  | RUNNING
  | PAUSED
  | FETCHING
  | DETECTING
  | PLACING
  | DISCARDING
  | COMPLETING
  | ERROR
  | STOPPED
deriving DecidableEq, Repr

/-- The `self.stats` dict of `BotLogic`. -/
structure Stats where
  boards_completed : Nat
  blocks_placed : Nat
  blocks_discarded : Nat
  current_board_blocks : Nat
deriving DecidableEq, Repr

/-- The mutable bot fields the control loop touches: the board, the current
state, the pause flag and the statistics. -/
structure BotSession where
  board : BoardState
  state : BotState
  is_paused : Bool
  stats : Stats

/-- Observable effects of one piece of loop code: `status s` is an
`update_status(s, …)` call, `chestEmpty` the `on_chest_empty` notification,
and the `act…` events the four sequencer calls. -/
inductive BotEvent
  | status (s : BotState)
  | chestEmpty
  | actFetch
  | actPlace
  | actDiscard
  | actConfirm
deriving DecidableEq, Repr

/-- The retry while-loop of `_fetch_block`: at `retries` attempts done and
`remaining = MAX_CHEST_RETRIES - retries` to go, each attempt clicks the
chest, re-detects at the parking spot, and returns on success; on
exhaustion the chest-empty notification fires and `none` is returned.
`MAX_CHEST_RETRIES` lives in the absent `config` module and is the
`remaining`/`maxRetries` parameter; `detect i` is the classifier's answer on
attempt `i`. -/
def fetch_block_loop (detect : Nat → Option BlockType) :
    Nat → Nat → Option BlockType × List BotEvent
  | _retries, 0 => (none, [BotEvent.chestEmpty])
  | retries, remaining + 1 =>
    match detect retries with
    | some t => (some t, [BotEvent.actFetch, BotEvent.status BotState.DETECTING])
    | none =>
      let r := fetch_block_loop detect (retries + 1) remaining
      (r.1, BotEvent.actFetch :: BotEvent.status BotState.DETECTING :: r.2)

/-- `BotLogic._fetch_block`: status FETCHING, then the bounded retry loop. -/
def fetch_block (detect : Nat → Option BlockType) (maxRetries : Nat) :
    Option BlockType × List BotEvent :=
  let r := fetch_block_loop detect 0 maxRetries
  (r.1, BotEvent.status BotState.FETCHING :: r.2)

/-- `BotLogic._place_block`: re-checks the quota, asks for the next free
slot, and on success clicks it, commits it to the board and bumps the
placed statistics; returns whether the piece was placed. -/
def place_block (limits : BlockType → Nat) (positions : BlockType → List SlotPosition)
    (s : BotSession) (t : BlockType) : Bool × BotSession × List BotEvent :=
  if can_place_block limits s.board t then
    match get_next_position positions s.board t with
    | none => (false, s, [])
    | some pos =>
      (true,
       { s with
         state := BotState.PLACING,
         board := mark_position_used s.board t pos,
         stats := { s.stats with
           blocks_placed := s.stats.blocks_placed + 1,
           current_board_blocks := s.stats.current_board_blocks + 1 } },
       [BotEvent.status BotState.PLACING, BotEvent.actPlace])
  else (false, s, [])

/-- `BotLogic._discard_block`: status DISCARDING, discard click, bump the
discard statistic. -/
def discard_block (s : BotSession) : BotSession × List BotEvent :=
  ({ s with
     state := BotState.DISCARDING,
     stats := { s.stats with blocks_discarded := s.stats.blocks_discarded + 1 } },
   [BotEvent.status BotState.DISCARDING, BotEvent.actDiscard])

/-- `BotLogic._complete_board`: confirm, bump the completed counter, reset
the board. -/
def complete_board (s : BotSession) : BotSession × List BotEvent :=
  ({ s with
     state := BotState.COMPLETING,
     board := reset s.board,
     stats := { s.stats with
       boards_completed := s.stats.boards_completed + 1,
       current_board_blocks := 0 } },
   [BotEvent.status BotState.COMPLETING, BotEvent.actConfirm])

/-- One iteration of the `while` body of `BotLogic._main_loop` (after the
pause/stop checks): complete the board if full; otherwise fetch, then on a
failed fetch pause with the operator message, on ORANGE discard, on a type
within quota try to place (discarding on failure), and past-quota discard. -/
def loop_iteration (limits : BlockType → Nat) (positions : BlockType → List SlotPosition)
    (maxRetries : Nat) (detect : Nat → Option BlockType) (s : BotSession) :
    BotSession × List BotEvent :=
  if is_complete s.board then complete_board s
  else
    let f := fetch_block detect maxRetries
    match f.1 with
    | none =>
      ({ s with is_paused := true, state := BotState.PAUSED },
       f.2 ++ [BotEvent.status BotState.PAUSED])
    | some t =>
      if t = BlockType.ORANGE then
        let d := discard_block s
        (d.1, f.2 ++ d.2)
      else if can_place_block limits s.board t then
        let p := place_block limits positions s t
        if p.1 then (p.2.1, f.2 ++ p.2.2)
        else
          let d := discard_block p.2.1
          (d.1, f.2 ++ p.2.2 ++ d.2)
      else
        let d := discard_block s
        (d.1, f.2 ++ d.2)

/-- `n` consecutive iterations of the main loop, each classifying with the
same attempt-indexed classifier. -/
def loop_iterations (limits : BlockType → Nat) (positions : BlockType → List SlotPosition)
    (maxRetries : Nat) (detect : Nat → Option BlockType) :
    Nat → BotSession → BotSession × List BotEvent
  | 0, s => (s, [])
  | n + 1, s =>
    let r := loop_iteration limits positions maxRetries detect s
    let rest := loop_iterations limits positions maxRetries detect n r.1
    (rest.1, r.2 ++ rest.2)

/-- The events of `n` failed fetch attempts. -/
def attemptsEvents : Nat → List BotEvent
  | 0 => []
  | n + 1 => BotEvent.actFetch :: BotEvent.status BotState.DETECTING :: attemptsEvents n

theorem attemptsEvents_mem (n : Nat) (e : BotEvent) (he : e ∈ attemptsEvents n) :
    e = BotEvent.actFetch ∨ e = BotEvent.status BotState.DETECTING := by
  induction n with
  | zero => simp [attemptsEvents] at he
  | succ n ih =>
    simp only [attemptsEvents, List.mem_cons] at he
    rcases he with h | h | h
    · exact Or.inl h
    · exact Or.inr h
    · exact ih h

theorem attemptsEvents_excludes (n : Nat) :
    BotEvent.status BotState.PAUSED ∉ attemptsEvents n ∧
    BotEvent.chestEmpty ∉ attemptsEvents n ∧
    BotEvent.actPlace ∉ attemptsEvents n ∧
    BotEvent.actDiscard ∉ attemptsEvents n := by
  refine ⟨fun h => ?_, fun h => ?_, fun h => ?_, fun h => ?_⟩ <;>
    rcases attemptsEvents_mem n _ h with h' | h' <;> exact absurd h' (by decide)

theorem fetch_block_loop_all_none (detect : Nat → Option BlockType) (n k : Nat)
    (h : ∀ i, i < n → detect (k + i) = none) :
    fetch_block_loop detect k n = (none, attemptsEvents n ++ [BotEvent.chestEmpty]) := by
  induction n generalizing k with
  | zero => rfl
  | succ n ih =>
    have h0 : detect k = none := by simpa using h 0 (Nat.succ_pos n)
    have hrec := ih (k + 1) fun i hi => by
      have := h (i + 1) (by omega)
      rwa [show k + (i + 1) = k + 1 + i by omega] at this
    simp [fetch_block_loop, h0, hrec, attemptsEvents]

/-- C9: if classification fails on every attempt of the configured retry
bound, one loop iteration (board not complete) emits exactly one transition
to PAUSED and exactly one chest-empty notification, performs no placement
and no discard, leaves the board and statistics untouched, and ends paused
in state PAUSED. -/
theorem retry_exhaustion_pauses_once (limits : BlockType → Nat)
    (positions : BlockType → List SlotPosition) (maxRetries : Nat)
    (detect : Nat → Option BlockType) (s : BotSession)
    (hrun : is_complete s.board = false)
    (hfail : ∀ i, i < maxRetries → detect i = none) :
    (loop_iteration limits positions maxRetries detect s).2.count
        (BotEvent.status BotState.PAUSED) = 1 ∧
    (loop_iteration limits positions maxRetries detect s).2.count BotEvent.chestEmpty = 1 ∧
    BotEvent.actPlace ∉ (loop_iteration limits positions maxRetries detect s).2 ∧
    BotEvent.actDiscard ∉ (loop_iteration limits positions maxRetries detect s).2 ∧
    (loop_iteration limits positions maxRetries detect s).1.board = s.board ∧
    (loop_iteration limits positions maxRetries detect s).1.stats = s.stats ∧
    (loop_iteration limits positions maxRetries detect s).1.is_paused = true ∧
    (loop_iteration limits positions maxRetries detect s).1.state = BotState.PAUSED := by
  have hloop := fetch_block_loop_all_none detect maxRetries 0 fun i hi => by
    simpa using hfail i hi
  have hf : fetch_block detect maxRetries =
      (none, BotEvent.status BotState.FETCHING ::
        (attemptsEvents maxRetries ++ [BotEvent.chestEmpty])) := by
    simp [fetch_block, hloop]
  have hr : loop_iteration limits positions maxRetries detect s =
      ({ s with is_paused := true, state := BotState.PAUSED },
       (BotEvent.status BotState.FETCHING ::
         (attemptsEvents maxRetries ++ [BotEvent.chestEmpty])) ++
         [BotEvent.status BotState.PAUSED]) := by
    simp [loop_iteration, hrun, hf]
  rw [hr]
  obtain ⟨hp, hc, hpl, hd⟩ := attemptsEvents_excludes maxRetries
  refine ⟨?_, ?_, ?_, ?_, rfl, rfl, rfl, rfl⟩
  · simp [List.count_cons, List.count_append, List.count_eq_zero.2 hp]
  · simp [List.count_cons, List.count_append, List.count_eq_zero.2 hc]
  · simp [List.mem_cons, List.mem_append, hpl]
  · simp [List.mem_cons, List.mem_append, hd]

/-- Modelled from the spec: demo quota table standing in for the absent
`BLOCK_LIMITS` (RED 2 and ORANGE 0 per the spec; quotas total 7). -/
def demoLimits : BlockType → Nat
  | .CYAN => 1
  | .BLUE => 2
  | .RED => 2
  | .GREEN => 1
  | .YELLOW => 1
  | .ORANGE => 0

/-- The session right after a successful start: fresh board, zero stats. -/
def freshSession : BotSession :=
  ⟨initBoard, BotState.RUNNING, false, ⟨0, 0, 0, 0⟩⟩

theorem retry_exhaustion_pauses_once_witness :
    (loop_iteration demoLimits demoPositions 3 (fun _ => none) freshSession).2.count
        (BotEvent.status BotState.PAUSED) = 1 ∧
    (loop_iteration demoLimits demoPositions 3 (fun _ => none) freshSession).1.board =
      freshSession.board := by
  have h := retry_exhaustion_pauses_once demoLimits demoPositions 3 (fun _ => none)
    freshSession (by decide) (fun i _ => rfl)
  exact ⟨h.1, h.2.2.2.2.1⟩

theorem loop_iteration_orange (limits : BlockType → Nat)
    (positions : BlockType → List SlotPosition) (m : Nat)
    (detect : Nat → Option BlockType) (s : BotSession)
    (hdet : detect 0 = some BlockType.ORANGE)
    (hrun : is_complete s.board = false) :
    loop_iteration limits positions (m + 1) detect s =
      ({ s with
         state := BotState.DISCARDING,
         stats := { s.stats with blocks_discarded := s.stats.blocks_discarded + 1 } },
       [BotEvent.status BotState.FETCHING, BotEvent.actFetch,
        BotEvent.status BotState.DETECTING, BotEvent.status BotState.DISCARDING,
        BotEvent.actDiscard]) := by
  have hf : fetch_block detect (m + 1) =
      (some BlockType.ORANGE,
       [BotEvent.status BotState.FETCHING, BotEvent.actFetch,
        BotEvent.status BotState.DETECTING]) := by
    simp [fetch_block, fetch_block_loop, hdet]
  simp [loop_iteration, hrun, hf, discard_block]

/-- C10: whenever the classifier answers ORANGE on the first attempt and the
board is not complete, an iteration discards (one discard event per
iteration), and `n` consecutive such iterations raise the discard statistic
by exactly `n` while the placed statistic and the entire board state stay
unchanged and no placement is performed. -/
theorem orange_always_discarded (limits : BlockType → Nat)
    (positions : BlockType → List SlotPosition) (maxRetries : Nat)
    (detect : Nat → Option BlockType) (n : Nat) (s : BotSession)
    (hpos : 0 < maxRetries)
    (hdet : detect 0 = some BlockType.ORANGE)
    (hrun : is_complete s.board = false) :
    (loop_iterations limits positions maxRetries detect n s).1.board = s.board ∧
    (loop_iterations limits positions maxRetries detect n s).1.stats.blocks_discarded =
      s.stats.blocks_discarded + n ∧
    (loop_iterations limits positions maxRetries detect n s).1.stats.blocks_placed =
      s.stats.blocks_placed ∧
    (loop_iterations limits positions maxRetries detect n s).2.count BotEvent.actDiscard = n ∧
    BotEvent.actPlace ∉ (loop_iterations limits positions maxRetries detect n s).2 := by
  obtain ⟨m, rfl⟩ : ∃ m, maxRetries = m + 1 := ⟨maxRetries - 1, by omega⟩
  induction n generalizing s with
  | zero => simp [loop_iterations]
  | succ n ih =>
    have hstep := loop_iteration_orange limits positions m detect s hdet hrun
    have hrest := ih ({ s with
        state := BotState.DISCARDING,
        stats := { s.stats with blocks_discarded := s.stats.blocks_discarded + 1 } }) hrun
    have hunfold : loop_iterations limits positions (m + 1) detect (n + 1) s =
        ((loop_iterations limits positions (m + 1) detect n
            (loop_iteration limits positions (m + 1) detect s).1).1,
         (loop_iteration limits positions (m + 1) detect s).2 ++
           (loop_iterations limits positions (m + 1) detect n
             (loop_iteration limits positions (m + 1) detect s).1).2) := rfl
    rw [hunfold, hstep]
    obtain ⟨h1, h2, h3, h4, h5⟩ := hrest
    refine ⟨h1, ?_, h3, ?_, ?_⟩
    · rw [h2]
      show s.stats.blocks_discarded + 1 + n = s.stats.blocks_discarded + (n + 1)
      omega
    · simp [List.count_append, h4, List.count_cons]
    · intro hmem
      rw [List.mem_append] at hmem
      rcases hmem with hl | hr
      · simp at hl
      · exact h5 hr

theorem orange_always_discarded_witness :
    (loop_iterations demoLimits demoPositions 3 (fun _ => some BlockType.ORANGE)
      3 freshSession).1.stats.blocks_discarded = 3 ∧
    (loop_iterations demoLimits demoPositions 3 (fun _ => some BlockType.ORANGE)
      3 freshSession).1.stats.blocks_placed = freshSession.stats.blocks_placed ∧
    (loop_iterations demoLimits demoPositions 3 (fun _ => some BlockType.ORANGE)
      3 freshSession).1.board = freshSession.board := by
  have h := orange_always_discarded demoLimits demoPositions 3
    (fun _ => some BlockType.ORANGE) 3 freshSession (by decide) rfl (by decide)
  exact ⟨h.2.1, h.2.2.1, h.1⟩

end Puzelki
